import Mathlib

/-!
Verification of the `short` link-shortening library: a shallow embedding
of `src/short/src/lib.rs` (crate `short` of the `direction` repository).
Rust `String`s are Lean `String`s; byte vectors (`Vec<u8>`, sled
keys/values) are `List Nat` with every entry `< 256`; `sled::Db` is an
association list from key bytes to value bytes; `uuid::Uuid::new_v4` is
modelled as an injective fresh-value supply (a counter held in the
manager state), reflecting the intended uniqueness of version-4 UUIDs;
`url::Url` is modelled by the URL string it wraps, with `url::Url::parse`
reduced to the RFC 3986 scheme rule (an ASCII letter, then
letters/digits/`+`/`-`/`.`, then `:`), normalization elided.
`bincode::serialize` / `bincode::deserialize` with bincode v1's legacy
configuration (fixed 8-byte little-endian integer lengths) are embedded
concretely as `encodeLink` / `decodeLink`.
-/

deriving instance DecidableEq for Except

namespace Short

/-! ## UTF-8 bytes of a string (what `String::as_bytes` / sled keys see) -/

/-- The UTF-8 byte sequence of a Unicode scalar value. -/
def utf8Bytes (n : Nat) : List Nat :=
  if n < 128 then [n]
  else if n < 2048 then [192 + n / 64, 128 + n % 64]
  else if n < 65536 then [224 + n / 4096, 128 + n / 64 % 64, 128 + n % 64]
  else [240 + n / 262144, 128 + n / 4096 % 64, 128 + n / 64 % 64, 128 + n % 64]

/-- UTF-8 bytes of a character list. -/
def flatBytes : List Char → List Nat
  | [] => []
  | c :: cs => utf8Bytes c.toNat ++ flatBytes cs

/-- The raw UTF-8 bytes of a string (Rust `str::as_bytes`). -/
def strBytes (s : String) : List Nat := flatBytes s.data

/-- Decode one UTF-8-encoded scalar value from the front of a byte list. -/
def decodeUtf8One : List Nat → Option (Nat × List Nat)
  | [] => none
  | b :: r =>
    if b < 128 then some (b, r)
    else if b < 192 then none
    else if b < 224 then
      match r with
      | b1 :: r1 =>
        if 128 ≤ b1 ∧ b1 < 192 then some ((b - 192) * 64 + (b1 - 128), r1) else none
      | [] => none
    else if b < 240 then
      match r with
      | b1 :: b2 :: r2 =>
        if (128 ≤ b1 ∧ b1 < 192) ∧ (128 ≤ b2 ∧ b2 < 192) then
          some ((b - 224) * 4096 + (b1 - 128) * 64 + (b2 - 128), r2)
        else none
      | _ => none
    else if b < 248 then
      match r with
      | b1 :: b2 :: b3 :: r3 =>
        if (128 ≤ b1 ∧ b1 < 192) ∧ (128 ≤ b2 ∧ b2 < 192) ∧ (128 ≤ b3 ∧ b3 < 192) then
          some ((b - 240) * 262144 + (b1 - 128) * 4096 + (b2 - 128) * 64 + (b3 - 128), r3)
        else none
      | _ => none
    else none

/-- Fuel-indexed UTF-8 decoding of a whole byte list into characters. -/
def decodeUtf8Go : Nat → List Nat → Option (List Char)
  | 0, l => if l = [] then some [] else none
  | fuel + 1, l =>
    if l = [] then some []
    else
      match decodeUtf8One l with
      | none => none
      | some (n, r) =>
        if Nat.isValidChar n then
          (decodeUtf8Go fuel r).map (fun cs => Char.ofNat n :: cs)
        else none

/-- Decode a byte list as UTF-8 (Rust `String::from_utf8`, as used by
`serde`/`bincode` when deserializing a `String`). -/
def decodeUtf8 (l : List Nat) : Option (List Char) := decodeUtf8Go l.length l

/-! ## bincode v1 legacy framing: fixed 8-byte little-endian lengths -/

/-- Little-endian `k`-byte encoding of `n` (bincode writes `u64` values and
lengths as 8 such bytes, and the 16 bytes of a `Uuid` come out big-endian,
obtained below by reversing). -/
def natToLE : Nat → Nat → List Nat
  | 0, _ => []
  | k + 1, n => n % 256 :: natToLE k (n / 256)

/-- The value of a little-endian byte list. -/
def leVal : List Nat → Nat
  | [] => 0
  | b :: r => b + 256 * leVal r

/-- Read exactly `k` bytes from the front of a byte list. -/
def readBytes (k : Nat) (l : List Nat) : Option (List Nat × List Nat) :=
  if l.length < k then none else some (l.take k, l.drop k)

/-- bincode encoding of a Rust `String`: `u64` byte length, then UTF-8 bytes. -/
def encodeStr (s : String) : List Nat := natToLE 8 (strBytes s).length ++ strBytes s

/-- Read a bincode-encoded `String`: 8-byte length, that many bytes, UTF-8-decoded. -/
def readStr (l : List Nat) : Option (String × List Nat) :=
  match readBytes 8 l with
  | none => none
  | some (lb, r) =>
    match readBytes (leVal lb) r with
    | none => none
    | some (sb, r1) =>
      match decodeUtf8 sb with
      | none => none
      | some cs => some (String.mk cs, r1)

/-- bincode encoding of a `Vec<String>` body: each element in order. -/
def encodeStrList : List String → List Nat
  | [] => []
  | s :: ss => encodeStr s ++ encodeStrList ss

/-- Read `k` consecutive bincode-encoded strings. -/
def readStrs : Nat → List Nat → Option (List String × List Nat)
  | 0, l => some ([], l)
  | k + 1, l =>
    match readStr l with
    | none => none
    | some (s, r) =>
      match readStrs k r with
      | none => none
      | some (ss, r1) => some (s :: ss, r1)

/-! ## External collaborators: `url::Url::parse` and `urlencoding::encode` -/

/-- Scheme characters after the first (RFC 3986: ALPHA / DIGIT / `+` / `-` / `.`). -/
def isSchemeChar (c : Char) : Bool :=
  c.isAlphanum || c == '+' || c == '-' || c == '.'

/-- Scan the tail of a scheme up to the `:` terminator. -/
def schemeRest : List Char → Bool
  | [] => false
  | c :: cs => if c == ':' then true else isSchemeChar c && schemeRest cs

/-- Whether a character list starts with a well-formed URL scheme. -/
def schemeOk : List Char → Bool
  | [] => false
  | c :: cs => c.isAlpha && schemeRest cs

/-- Model of the collaborator `url::Url::parse`, reduced to the RFC 3986
scheme rule (`ALPHA *( ALPHA / DIGIT / "+" / "-" / "." ) ":"`); a successful
parse returns the URL it was given (the crate's normalization is elided, so
a parsed URL re-parses to itself, which is all the library relies on). -/
def urlParse (s : String) : Option String :=
  if schemeOk s.data then some s else none

/-- Uppercase hex digit for a value below 16. -/
def hexDigit (n : Nat) : Char :=
  if n < 10 then Char.ofNat (48 + n) else Char.ofNat (55 + n)

/-- Percent-encode a list of bytes: `%XY` per byte, uppercase hex. -/
def percentBytes : List Nat → List Char
  | [] => []
  | b :: r => '%' :: hexDigit (b / 16) :: hexDigit (b % 16) :: percentBytes r

/-- A byte the `urlencoding` crate leaves as-is: ASCII alphanumeric or
`-` `_` `.` `~`. -/
def isUnreserved (c : Char) : Bool :=
  c.isAlphanum || c == '-' || c == '_' || c == '.' || c == '~'

/-- Percent-encoding of one character (its UTF-8 bytes, escaped). -/
def encodeChar (c : Char) : List Char :=
  if isUnreserved c then [c] else percentBytes (utf8Bytes c.toNat)

/-- Percent-encoding of a character list. -/
def encodeChars : List Char → List Char
  | [] => []
  | c :: cs => encodeChar c ++ encodeChars cs

/-- Model of the collaborator `urlencoding::encode` (percent-encoding every
byte outside the unreserved set). -/
def urlencode (s : String) : String := String.mk (encodeChars s.data)

/-! ## The `Link` record and its bincode serialization -/

/-- Structure `Link` from `src/short/src/lib.rs`: `identifier: Uuid` (the
128-bit value, as a `Nat`), `original_link: Url` (modelled by its string),
`shortened_link: String`, `aliases: Option<Vec<String>>`. -/
structure Link where
  identifier : Nat
  original_link : String
  shortened_link : String
  aliases : Option (List String)
deriving DecidableEq, Repr

/-- Bounds that every `Link` built from Rust values satisfies: the `Uuid`
is 128-bit, and every string / vector fits in a `usize` (so its bincode
`u64` length prefix is exact). -/
def linkWF (l : Link) : Prop :=
  l.identifier < 340282366920938463463374607431768211456 ∧
  (strBytes l.original_link).length < 18446744073709551616 ∧
  (strBytes l.shortened_link).length < 18446744073709551616 ∧
  match l.aliases with
  | none => True
  | some as1 =>
    as1.length < 18446744073709551616 ∧
    ∀ a ∈ as1, (strBytes a).length < 18446744073709551616

instance linkWF_decidable : (l : Link) → Decidable (linkWF l)
  | ⟨i, u, sc, none⟩ => by
    unfold linkWF
    exact inferInstance
  | ⟨i, u, sc, some as1⟩ => by
    unfold linkWF
    exact inferInstance

/-- Serialization `bincode::serialize` of a `Link` (bincode v1 legacy
config): fields in declaration order — `Uuid` as a length-16-prefixed
16-byte big-endian blob (`serialize_bytes(self.as_bytes())`), `Url` as its
string, `String`s as `u64` length + UTF-8 bytes, `Option` as a one-byte
tag, `Vec` as `u64` count + elements.  This is `Link::encode` composed
with the serializer. -/
def encodeLink (l : Link) : List Nat :=
  natToLE 8 16 ++ (natToLE 16 l.identifier).reverse ++
  encodeStr l.original_link ++
  encodeStr l.shortened_link ++
  match l.aliases with
  | none => [0]
  | some as1 => 1 :: (natToLE 8 as1.length ++ encodeStrList as1)

/-- Deserialization `bincode::deserialize::<Link>`: reads the fields back
in declaration order; the `Url` field re-parses the decoded string (serde
`Url` deserialization), and a failure anywhere is `none` (a
`bincode::Error`). -/
def decodeLink (b : List Nat) : Option Link :=
  match readBytes 8 b with
  | none => none
  | some (lb, r) =>
    if leVal lb = 16 then
      match readBytes 16 r with
      | none => none
      | some (ib, r1) =>
        match readStr r1 with
        | none => none
        | some (u, r2) =>
          match urlParse u with
          | none => none
          | some uu =>
            match readStr r2 with
            | none => none
            | some (sc, r3) =>
              match readBytes 1 r3 with
              | none => none
              | some (tb, r4) =>
                if tb = [0] then some ⟨leVal ib.reverse, uu, sc, none⟩
                else if tb = [1] then
                  match readBytes 8 r4 with
                  | none => none
                  | some (cb, r5) =>
                    match readStrs (leVal cb) r5 with
                    | none => none
                    | some (as1, _) => some ⟨leVal ib.reverse, uu, sc, some as1⟩
                else none
    else none

/-! ## The store and the `LinkManager` operations -/

/-- Error enum `LinkError` from `src/short/src/lib.rs`.  Payloads carried
only for diagnostics (`url::ParseError`, `sled::Error`, `bincode::Error`,
`tokio::task::JoinError`) are dropped; the `String` payload of
`LinkNotFound` is kept, as `resolve_link` constructs it from its input. -/
inductive LinkError where
  | InvalidLink
  | DbAccessFailure
  | LinkEncodingFailure
  | LinkNotFound (s : String)
  | JoinError
deriving DecidableEq, Repr

/-- Store insert `sled::Db::insert`: unconditional upsert of a key/value
pair in the byte-keyed map (modelled as an association list, last writer
wins). -/
def dbInsert (k v : List Nat) : List (List Nat × List Nat) → List (List Nat × List Nat)
  | [] => [(k, v)]
  | (k1, v1) :: rest => if k1 = k then (k, v) :: rest else (k1, v1) :: dbInsert k v rest

/-- Store lookup `sled::Db::get`: point lookup, `none` when the key is
absent. -/
def dbGet (k : List Nat) : List (List Nat × List Nat) → Option (List Nat)
  | [] => none
  | (k1, v1) :: rest => if k1 = k then some v1 else dbGet k rest

/-- The state a `LinkManager` evolves: the sled database contents, plus the
fresh-identifier supply standing in for `Uuid::new_v4` (each call draws the
next value, so identifiers are pairwise distinct, the guarantee version-4
UUIDs provide up to negligible collision probability). -/
structure LMState where
  db : List (List Nat × List Nat)
  nextId : Nat
deriving DecidableEq, Repr

/-- Operation `LinkManager::generate_link`: parse the URL (`InvalidLink`
on failure, before any other effect), draw a fresh identifier,
percent-encode the aliases element-wise, attach the placeholder short code
`"farts"` (the source's `TODO: actually make links shorten!`), serialize,
and insert into the store keyed by the short code's UTF-8 bytes.
`Link::encode` (`bincode::serialize`) and `sled::Db::insert` cannot fail
in this model, so their `LinkEncodingFailure` / `DbAccessFailure` paths
are never taken. -/
def generate_link (st : LMState) (link : String) (aliases : Option (List String)) :
    Except LinkError Link × LMState :=
  match urlParse link with
  | none => (.error .InvalidLink, st)
  | some original_link =>
    let identifier := st.nextId
    let aliases1 := aliases.map (fun list => list.map (fun s => urlencode s))
    let encapsulated_link : Link := ⟨identifier, original_link, "farts", aliases1⟩
    (.ok encapsulated_link,
      ⟨dbInsert (strBytes encapsulated_link.shortened_link) (encodeLink encapsulated_link)
          st.db,
        st.nextId + 1⟩)

/-- Operation `LinkManager::resolve_link`: look the short code up by its
UTF-8 bytes; decode a hit (`bincode::Error` becomes `LinkEncodingFailure`
through the `#[from]` conversion), report a miss as `LinkNotFound`
carrying the code.  It takes `&self` and `sled::Db::get` is read-only, so
the state is returned unchanged. -/
def resolve_link (st : LMState) (short_link : String) : Except LinkError Link × LMState :=
  (match dbGet (strBytes short_link) st.db with
    | some ivec =>
      match decodeLink ivec with
      | some l => .ok l
      | none => .error .LinkEncodingFailure
    | none => .error (.LinkNotFound short_link),
    st)

/-! ## Lemmas: the UTF-8 codec round-trips -/

theorem utf8Bytes_ne_nil (n : Nat) : utf8Bytes n ≠ [] := by
  unfold utf8Bytes
  split <;> [skip; split] <;> [simp; skip; split] <;> simp

theorem utf8Bytes_length_pos (n : Nat) : 0 < (utf8Bytes n).length :=
  List.length_pos.mpr (utf8Bytes_ne_nil n)

theorem decodeUtf8One_utf8Bytes (n : Nat) (hn : n < 2097152) (r : List Nat) :
    decodeUtf8One (utf8Bytes n ++ r) = some (n, r) := by
  by_cases h1 : n < 128
  · have hl : utf8Bytes n ++ r = n :: r := by simp [utf8Bytes, h1]
    rw [hl]
    simp [decodeUtf8One, h1]
  · by_cases h2 : n < 2048
    · have hl : utf8Bytes n ++ r = (192 + n / 64) :: (128 + n % 64) :: r := by
        simp [utf8Bytes, h1, h2]
      rw [hl]
      have e1 : ¬(192 + n / 64 < 128) := by omega
      have e2 : ¬(192 + n / 64 < 192) := by omega
      have e3 : 192 + n / 64 < 224 := by omega
      have e4 : 128 ≤ 128 + n % 64 ∧ 128 + n % 64 < 192 := by omega
      simp only [decodeUtf8One, if_neg e1, if_neg e2, if_pos e3, if_pos e4]
      have ev : (192 + n / 64 - 192) * 64 + (128 + n % 64 - 128) = n := by omega
      rw [ev]
    · by_cases h3 : n < 65536
      · have hl : utf8Bytes n ++ r =
            (224 + n / 4096) :: (128 + n / 64 % 64) :: (128 + n % 64) :: r := by
          simp [utf8Bytes, h1, h2, h3]
        rw [hl]
        have e1 : ¬(224 + n / 4096 < 128) := by omega
        have e2 : ¬(224 + n / 4096 < 192) := by omega
        have e3 : ¬(224 + n / 4096 < 224) := by omega
        have e4 : 224 + n / 4096 < 240 := by omega
        have e5 : (128 ≤ 128 + n / 64 % 64 ∧ 128 + n / 64 % 64 < 192) ∧
            (128 ≤ 128 + n % 64 ∧ 128 + n % 64 < 192) := by omega
        simp only [decodeUtf8One, if_neg e1, if_neg e2, if_neg e3, if_pos e4, if_pos e5]
        have ev : (224 + n / 4096 - 224) * 4096 + (128 + n / 64 % 64 - 128) * 64 +
            (128 + n % 64 - 128) = n := by omega
        rw [ev]
      · have hl : utf8Bytes n ++ r =
            (240 + n / 262144) :: (128 + n / 4096 % 64) :: (128 + n / 64 % 64) ::
              (128 + n % 64) :: r := by
          simp [utf8Bytes, h1, h2, h3]
        rw [hl]
        have e1 : ¬(240 + n / 262144 < 128) := by omega
        have e2 : ¬(240 + n / 262144 < 192) := by omega
        have e3 : ¬(240 + n / 262144 < 224) := by omega
        have e4 : ¬(240 + n / 262144 < 240) := by omega
        have e5 : 240 + n / 262144 < 248 := by omega
        have e6 : (128 ≤ 128 + n / 4096 % 64 ∧ 128 + n / 4096 % 64 < 192) ∧
            (128 ≤ 128 + n / 64 % 64 ∧ 128 + n / 64 % 64 < 192) ∧
            (128 ≤ 128 + n % 64 ∧ 128 + n % 64 < 192) := by omega
        simp only [decodeUtf8One, if_neg e1, if_neg e2, if_neg e3, if_neg e4, if_pos e5,
          if_pos e6]
        have ev : (240 + n / 262144 - 240) * 262144 + (128 + n / 4096 % 64 - 128) * 4096 +
            (128 + n / 64 % 64 - 128) * 64 + (128 + n % 64 - 128) = n := by omega
        rw [ev]

theorem char_toNat_lt (c : Char) : c.toNat < 1114112 := by
  have h := c.valid
  rcases h with h | h
  · exact Nat.lt_trans h (by norm_num)
  · exact h.2

theorem char_isValid (c : Char) : Nat.isValidChar c.toNat := c.valid

theorem decodeUtf8Go_flatBytes (cs : List Char) :
    ∀ fuel, (flatBytes cs).length ≤ fuel → decodeUtf8Go fuel (flatBytes cs) = some cs := by
  induction cs with
  | nil =>
    intro fuel _
    cases fuel <;> simp [decodeUtf8Go, flatBytes]
  | cons c cs ih =>
    intro fuel hfuel
    have hpos : 0 < (flatBytes (c :: cs)).length := by
      simp only [flatBytes, List.length_append]
      have := utf8Bytes_length_pos c.toNat
      omega
    cases fuel with
    | zero => omega
    | succ f =>
      have hne : flatBytes (c :: cs) ≠ [] := by
        intro h
        rw [h] at hpos
        simp at hpos
      simp only [flatBytes] at hne ⊢
      rw [decodeUtf8Go, if_neg hne,
        decodeUtf8One_utf8Bytes c.toNat (Nat.lt_trans (char_toNat_lt c) (by norm_num)) _]
      show (if Nat.isValidChar c.toNat then
          (decodeUtf8Go f (flatBytes cs)).map (fun l => Char.ofNat c.toNat :: l)
        else none) = some (c :: cs)
      rw [if_pos (char_isValid c),
        ih f (by
          simp only [flatBytes, List.length_append] at hfuel
          have := utf8Bytes_length_pos c.toNat
          omega)]
      simp [Char.ofNat_toNat]

theorem decodeUtf8_flatBytes (cs : List Char) : decodeUtf8 (flatBytes cs) = some cs :=
  decodeUtf8Go_flatBytes cs _ le_rfl

theorem decodeUtf8_strBytes (s : String) : decodeUtf8 (strBytes s) = some s.data :=
  decodeUtf8_flatBytes s.data

theorem string_mk_data (s : String) : String.mk s.data = s := rfl

/-! ## Lemmas: the framing layer round-trips -/

theorem natToLE_length (k n : Nat) : (natToLE k n).length = k := by
  induction k generalizing n with
  | zero => rfl
  | succ k ih => simp [natToLE, ih]

theorem leVal_natToLE (k n : Nat) (h : n < 256 ^ k) : leVal (natToLE k n) = n := by
  induction k generalizing n with
  | zero =>
    simp only [Nat.pow_zero, Nat.lt_one_iff] at h
    simp [natToLE, leVal, h]
  | succ k ih =>
    have hd : n / 256 < 256 ^ k := by
      rw [Nat.div_lt_iff_lt_mul (by norm_num)]
      calc n < 256 ^ (k + 1) := h
        _ = 256 ^ k * 256 := by ring
    simp only [natToLE, leVal, ih (n / 256) hd]
    omega

theorem readBytes_append (k : Nat) (a r : List Nat) (h : a.length = k) :
    readBytes k (a ++ r) = some (a, r) := by
  subst h
  simp only [readBytes, List.length_append]
  rw [if_neg (by omega), List.take_left, List.drop_left]

theorem readStr_encodeStr (s : String) (r : List Nat)
    (h : (strBytes s).length < 18446744073709551616) :
    readStr (encodeStr s ++ r) = some (s, r) := by
  have h1 : readBytes 8 (natToLE 8 (strBytes s).length ++ (strBytes s ++ r)) =
      some (natToLE 8 (strBytes s).length, strBytes s ++ r) :=
    readBytes_append 8 _ _ (natToLE_length 8 _)
  have h2 : leVal (natToLE 8 (strBytes s).length) = (strBytes s).length :=
    leVal_natToLE 8 _ (by norm_num at h ⊢; omega)
  have h3 : readBytes (strBytes s).length (strBytes s ++ r) = some (strBytes s, r) :=
    readBytes_append _ _ _ rfl
  simp [readStr, encodeStr, List.append_assoc, h1, h2, h3, decodeUtf8_strBytes,
    string_mk_data]

theorem readStrs_encodeStrList (ss : List String) (r : List Nat)
    (h : ∀ s ∈ ss, (strBytes s).length < 18446744073709551616) :
    readStrs ss.length (encodeStrList ss ++ r) = some (ss, r) := by
  induction ss generalizing r with
  | nil => simp [encodeStrList, readStrs]
  | cons s ss ih =>
    have h1 : readStr (encodeStr s ++ (encodeStrList ss ++ r)) =
        some (s, encodeStrList ss ++ r) :=
      readStr_encodeStr s (encodeStrList ss ++ r) (h s (by simp))
    have h2 : readStrs ss.length (encodeStrList ss ++ r) = some (ss, r) :=
      ih r (fun t ht => h t (by simp [ht]))
    simp [encodeStrList, readStrs, List.append_assoc, h1, h2]

/-! ## Lemmas: the URL-parse model is stable under re-parsing -/

theorem urlParse_eq_some (s t : String) (h : urlParse s = some t) :
    t = s ∧ urlParse t = some t := by
  unfold urlParse at h ⊢
  by_cases hc : schemeOk s.data
  · rw [if_pos hc] at h
    obtain rfl : t = s := by simpa using h.symm
    rw [if_pos hc]
    exact ⟨rfl, rfl⟩
  · rw [if_neg hc] at h
    exact absurd h (by simp)

/-! ## Lemmas: `Link` serialization round-trips -/

theorem decodeLink_encodeLink (l : Link) (hWF : linkWF l)
    (hu : urlParse l.original_link = some l.original_link) :
    decodeLink (encodeLink l) = some l := by
  obtain ⟨ident, u, sc, al⟩ := l
  obtain ⟨hid, hule, hscle, hal⟩ := hWF
  simp only at hid hule hscle hal hu
  have hlen16 : ((natToLE 16 ident).reverse).length = 16 := by
    rw [List.length_reverse, natToLE_length]
  have hrd8 : ∀ r : List Nat, readBytes 8 (natToLE 8 16 ++ r) = some (natToLE 8 16, r) :=
    fun r => readBytes_append 8 _ _ (natToLE_length 8 16)
  have hval16 : leVal (natToLE 8 16) = 16 := leVal_natToLE 8 16 (by norm_num)
  have hrd16 : ∀ r : List Nat,
      readBytes 16 ((natToLE 16 ident).reverse ++ r) =
        some ((natToLE 16 ident).reverse, r) :=
    fun r => readBytes_append 16 _ _ hlen16
  have hident : leVal (natToLE 16 ident) = ident :=
    leVal_natToLE 16 ident (by norm_num at hid ⊢; omega)
  have hru : ∀ tail, readStr (encodeStr u ++ tail) = some (u, tail) :=
    fun tail => readStr_encodeStr u tail hule
  have hrsc : ∀ tail, readStr (encodeStr sc ++ tail) = some (sc, tail) :=
    fun tail => readStr_encodeStr sc tail hscle
  cases al with
  | none =>
    have htag : readBytes 1 [0] = some ([0], []) := readBytes_append 1 [0] [] rfl
    simp [encodeLink, decodeLink, List.append_assoc, hrd8, hval16, hrd16, hru, hrsc,
      hu, htag, hident]
  | some as1 =>
    obtain ⟨hcnt, helem⟩ := hal
    have htag : readBytes 1 (1 :: (natToLE 8 as1.length ++ encodeStrList as1)) =
        some ([1], natToLE 8 as1.length ++ encodeStrList as1) :=
      readBytes_append 1 [1] _ rfl
    have hrdc : readBytes 8 (natToLE 8 as1.length ++ encodeStrList as1) =
        some (natToLE 8 as1.length, encodeStrList as1) :=
      readBytes_append 8 _ _ (natToLE_length 8 _)
    have hcval : leVal (natToLE 8 as1.length) = as1.length :=
      leVal_natToLE 8 _ (by norm_num at hcnt ⊢; omega)
    have hstrs : readStrs as1.length (encodeStrList as1 ++ []) = some (as1, []) :=
      readStrs_encodeStrList as1 [] helem
    rw [List.append_nil] at hstrs
    simp [encodeLink, decodeLink, List.append_assoc, hrd8, hval16, hrd16, hru, hrsc,
      hu, htag, hrdc, hcval, hstrs, hident]

/-! ## Lemmas: the store behaves as a map -/

theorem dbGet_dbInsert_self (k v : List Nat) (db : List (List Nat × List Nat)) :
    dbGet k (dbInsert k v db) = some v := by
  induction db with
  | nil => simp [dbInsert, dbGet]
  | cons p rest ih =>
    obtain ⟨k1, v1⟩ := p
    by_cases h : k1 = k
    · simp [dbInsert, dbGet, h]
    · simp [dbInsert, dbGet, h, ih]

/-! ## Lemmas: what a successful `generate_link` call produces -/

theorem generate_link_ok (st : LMState) (link : String) (aliases : Option (List String))
    (r : Link) (st' : LMState)
    (h : generate_link st link aliases = (.ok r, st')) :
    r = ⟨st.nextId, r.original_link, "farts",
          aliases.map (fun l => l.map urlencode)⟩ ∧
    urlParse link = some r.original_link ∧
    st' = ⟨dbInsert (strBytes "farts") (encodeLink r) st.db, st.nextId + 1⟩ := by
  unfold generate_link at h
  cases hp : urlParse link with
  | none =>
    rw [hp] at h
    simp at h
  | some u =>
    rw [hp] at h
    simp only [Prod.mk.injEq, Except.ok.injEq] at h
    obtain ⟨hr, hst⟩ := h
    subst hr
    exact ⟨rfl, rfl, hst.symm⟩

theorem resolve_link_inserted (db0 : List (List Nat × List Nat)) (n : Nat) (r : Link)
    (hWF : linkWF r) (hu : urlParse r.original_link = some r.original_link) :
    (resolve_link ⟨dbInsert (strBytes r.shortened_link) (encodeLink r) db0, n⟩
        r.shortened_link).1 = .ok r := by
  simp [resolve_link, dbGet_dbInsert_self, decodeLink_encodeLink r hWF hu]

/-! ## The claims -/

/-- C1: for every valid URL and optional alias sequence, after a successful
`generate_link` returning record `r`, `resolve_link` of `r`'s short code on
the resulting state succeeds and returns `r` field-for-field (no
intervening insert under the same short code having happened).  `linkWF`
holds of every record a Rust run can build (128-bit UUID, `usize`-bounded
strings and vectors). -/
theorem roundtrip_generate_resolve (st : LMState) (link : String)
    (aliases : Option (List String)) (r : Link) (st' : LMState)
    (hgen : generate_link st link aliases = (.ok r, st'))
    (hWF : linkWF r) :
    (resolve_link st' r.shortened_link).1 = .ok r := by
  obtain ⟨hr, hp, hst⟩ := generate_link_ok st link aliases r st' hgen
  have hu : urlParse r.original_link = some r.original_link :=
    (urlParse_eq_some link r.original_link hp).2
  have hsc : r.shortened_link = "farts" := by rw [hr]
  rw [hst]
  show (resolve_link ⟨dbInsert (strBytes "farts") (encodeLink r) st.db, st.nextId + 1⟩
      r.shortened_link).1 = .ok r
  rw [hsc, show strBytes "farts" = strBytes r.shortened_link from by rw [hsc], ← hsc]
  exact resolve_link_inserted st.db (st.nextId + 1) r hWF hu

theorem roundtrip_generate_resolve_witness :
    (resolve_link
        ⟨dbInsert (strBytes "farts")
            (encodeLink ⟨5, "https://a.example", "farts", some ["my%20link"]⟩) [], 6⟩
        "farts").1 =
      .ok ⟨5, "https://a.example", "farts", some ["my%20link"]⟩ :=
  roundtrip_generate_resolve ⟨[], 5⟩ "https://a.example" (some ["my link"])
    ⟨5, "https://a.example", "farts", some ["my%20link"]⟩
    ⟨dbInsert (strBytes "farts")
        (encodeLink ⟨5, "https://a.example", "farts", some ["my%20link"]⟩) [], 6⟩
    (by decide) (by decide)

/-- C2: two successful `generate_link` calls in sequence yield records with
distinct identifiers but the same placeholder short code `"farts"`, and
`resolve_link` of that short code afterwards returns only the second
record: the second insert silently overwrote the first. -/
theorem overwrite_behavior (st : LMState) (u1 u2 : String)
    (a1 a2 : Option (List String)) (r1 r2 : Link) (st1 st2 : LMState)
    (h1 : generate_link st u1 a1 = (.ok r1, st1))
    (h2 : generate_link st1 u2 a2 = (.ok r2, st2))
    (hWF : linkWF r2) :
    r1.identifier ≠ r2.identifier ∧
    r1.shortened_link = "farts" ∧ r2.shortened_link = "farts" ∧
    (resolve_link st2 r1.shortened_link).1 = .ok r2 ∧ r1 ≠ r2 := by
  obtain ⟨hr1, hp1, hst1⟩ := generate_link_ok st u1 a1 r1 st1 h1
  obtain ⟨hr2, hp2, hst2⟩ := generate_link_ok st1 u2 a2 r2 st2 h2
  have hu2 : urlParse r2.original_link = some r2.original_link :=
    (urlParse_eq_some u2 r2.original_link hp2).2
  have hid1 : r1.identifier = st.nextId := by rw [hr1]
  have hid2 : r2.identifier = st1.nextId := by rw [hr2]
  have hnext : st1.nextId = st.nextId + 1 := by rw [hst1]
  have hsc1 : r1.shortened_link = "farts" := by rw [hr1]
  have hsc2 : r2.shortened_link = "farts" := by rw [hr2]
  have hne : r1.identifier ≠ r2.identifier := by
    rw [hid1, hid2, hnext]
    omega
  refine ⟨hne, hsc1, hsc2, ?_, fun he => hne (by rw [he])⟩
  rw [hst2]
  show (resolve_link ⟨dbInsert (strBytes "farts") (encodeLink r2) st1.db, st1.nextId + 1⟩
      r1.shortened_link).1 = .ok r2
  rw [hsc1, show strBytes "farts" = strBytes r2.shortened_link from by rw [hsc2],
    ← hsc2]
  exact resolve_link_inserted st1.db (st1.nextId + 1) r2 hWF hu2

theorem overwrite_behavior_witness :
    (0 : Nat) ≠ 1 ∧ "farts" = "farts" ∧ "farts" = "farts" ∧
    (resolve_link
        ⟨dbInsert (strBytes "farts")
            (encodeLink ⟨1, "https://b.example", "farts", none⟩)
            (dbInsert (strBytes "farts")
              (encodeLink ⟨0, "https://a.example", "farts", none⟩) []), 2⟩
        "farts").1 = .ok ⟨1, "https://b.example", "farts", none⟩ ∧
    (⟨0, "https://a.example", "farts", none⟩ : Link) ≠
      ⟨1, "https://b.example", "farts", none⟩ :=
  overwrite_behavior ⟨[], 0⟩ "https://a.example" "https://b.example" none none
    ⟨0, "https://a.example", "farts", none⟩ ⟨1, "https://b.example", "farts", none⟩
    ⟨dbInsert (strBytes "farts") (encodeLink ⟨0, "https://a.example", "farts", none⟩) [],
      1⟩
    ⟨dbInsert (strBytes "farts") (encodeLink ⟨1, "https://b.example", "farts", none⟩)
        (dbInsert (strBytes "farts")
          (encodeLink ⟨0, "https://a.example", "farts", none⟩) []), 2⟩
    (by decide) (by decide) (by decide)

/-- C3: when the input fails URL parsing, `generate_link` fails with the
`InvalidLink` kind and the whole manager state — store included — is
untouched: no key is inserted and every stored record reads back
unchanged. -/
theorem invalid_url_rejected (st : LMState) (s : String) (a : Option (List String))
    (h : urlParse s = none) :
    generate_link st s a = (.error .InvalidLink, st) ∧
    ∀ k, dbGet k (generate_link st s a).2.db = dbGet k st.db := by
  have he : generate_link st s a = (.error .InvalidLink, st) := by
    unfold generate_link
    rw [h]
  exact ⟨he, fun k => by rw [he]⟩

theorem invalid_url_rejected_witness :
    generate_link ⟨[(strBytes "farts", [7])], 3⟩ "not a url" none =
      (.error .InvalidLink, ⟨[(strBytes "farts", [7])], 3⟩) :=
  (invalid_url_rejected ⟨[(strBytes "farts", [7])], 3⟩ "not a url" none (by decide)).1

/-- C4: resolving a short code whose key is absent from the store fails
with `LinkNotFound` carrying that code — never a decoding error — and the
`LinkNotFound` kind is distinct from the store-access-failure kind, so
callers can branch on absence vs inability to check. -/
theorem resolve_absent (st : LMState) (code : String)
    (h : dbGet (strBytes code) st.db = none) :
    (resolve_link st code).1 = .error (.LinkNotFound code) ∧
    ∀ s, LinkError.LinkNotFound s ≠ .DbAccessFailure ∧
      LinkError.LinkNotFound s ≠ .LinkEncodingFailure := by
  refine ⟨by simp [resolve_link, h], fun s => by simp⟩

theorem resolve_absent_witness :
    (resolve_link ⟨[(strBytes "farts", [7])], 0⟩ "gone").1 =
      .error (.LinkNotFound "gone") :=
  (resolve_absent ⟨[(strBytes "farts", [7])], 0⟩ "gone" (by decide)).1

/-- C5: with aliases present, the returned record's aliases are exactly the
element-wise percent-encoding of the caller's list, order and length
preserved (`"my link"` becomes `"my%20link"`, `"a/b"` becomes `"a%2Fb"`);
with aliases absent, the returned record's aliases are absent. -/
theorem alias_encoding (st0 st1 : LMState) (u0 u1 : String) (al : List String)
    (r0 r1 : Link) (st0' st1' : LMState)
    (h0 : generate_link st0 u0 (some al) = (.ok r0, st0'))
    (h1 : generate_link st1 u1 none = (.ok r1, st1')) :
    r0.aliases = some (al.map urlencode) ∧
    (al.map urlencode).length = al.length ∧
    r1.aliases = none ∧
    urlencode "my link" = "my%20link" ∧ urlencode "a/b" = "a%2Fb" := by
  obtain ⟨hr0, -, -⟩ := generate_link_ok st0 u0 (some al) r0 st0' h0
  obtain ⟨hr1, -, -⟩ := generate_link_ok st1 u1 none r1 st1' h1
  refine ⟨by rw [hr0]; rfl, List.length_map _ _, by rw [hr1]; rfl, by decide, by decide⟩

theorem alias_encoding_witness :
    (some ["my%20link", "a%2Fb"] : Option (List String)) =
      some (["my link", "a/b"].map urlencode) ∧
    (["my link", "a/b"].map urlencode).length =
      (["my link", "a/b"] : List String).length ∧
    (none : Option (List String)) = none ∧
    urlencode "my link" = "my%20link" ∧ urlencode "a/b" = "a%2Fb" :=
  alias_encoding ⟨[], 0⟩ ⟨[], 0⟩ "https://a.example" "https://b.example"
    ["my link", "a/b"]
    ⟨0, "https://a.example", "farts", some ["my%20link", "a%2Fb"]⟩
    ⟨0, "https://b.example", "farts", none⟩
    ⟨dbInsert (strBytes "farts")
        (encodeLink ⟨0, "https://a.example", "farts", some ["my%20link", "a%2Fb"]⟩) [],
      1⟩
    ⟨dbInsert (strBytes "farts")
        (encodeLink ⟨0, "https://b.example", "farts", none⟩) [], 1⟩
    (by decide) (by decide)

/-- C6 counterexample: stored bytes that are not a valid `Link` encoding
make `resolve_link` fail with `LinkEncodingFailure` — the very kind the
claim says is reserved for serialization failures in `generate_link`;
`LinkError` (from the source) has no separate `LinkDecodingFailure` kind. -/
theorem decode_error_kind_cex :
    (resolve_link ⟨[(strBytes "x", [7])], 0⟩ "x").1 = .error .LinkEncodingFailure := by
  decide

/-- C6 amended: when `resolve_link` finds stored bytes for the short code
that are not a valid encoding of a `Link`, it fails with
`LinkEncodingFailure` — the same error kind used for serialization
failures during `generate_link` (`#[from] bincode::Error` feeds both
paths); no distinct `LinkDecodingFailure` kind exists. -/
theorem decode_error_kind (st : LMState) (code : String) (ivec : List Nat)
    (h1 : dbGet (strBytes code) st.db = some ivec)
    (h2 : decodeLink ivec = none) :
    (resolve_link st code).1 = .error .LinkEncodingFailure := by
  simp [resolve_link, h1, h2]

theorem decode_error_kind_witness :
    (resolve_link ⟨[(strBytes "y", [1, 2])], 3⟩ "y").1 =
      .error .LinkEncodingFailure :=
  decode_error_kind ⟨[(strBytes "y", [1, 2])], 3⟩ "y" [1, 2] (by decide) (by decide)

/-- C7: the code evaluated where the claim expects collision handling —
two successful calls both receive the constant placeholder short code
`"farts"` (the source's `TODO`), so no regeneration, bounded retry, or
`ShortCodeExhausted` failure can occur (`LinkError` has no such kind). -/
theorem placeholder_short_code :
    (generate_link ⟨[], 0⟩ "https://a.example" none).1 =
      .ok ⟨0, "https://a.example", "farts", none⟩ ∧
    (generate_link (generate_link ⟨[], 0⟩ "https://a.example" none).2
        "https://b.example" none).1 =
      .ok ⟨1, "https://b.example", "farts", none⟩ := by
  decide

/-- C8: every record a successful `generate_link` persists sits in the
store under exactly the UTF-8 bytes of its short code, and the stored
value is `encodeLink` of the full record — the bincode serialization of
its fields in declaration order. -/
theorem insert_key_and_value (st : LMState) (u : String) (a : Option (List String))
    (r : Link) (st' : LMState)
    (h : generate_link st u a = (.ok r, st')) :
    st'.db = dbInsert (strBytes r.shortened_link) (encodeLink r) st.db ∧
    dbGet (strBytes r.shortened_link) st'.db = some (encodeLink r) := by
  obtain ⟨hr, -, hst⟩ := generate_link_ok st u a r st' h
  have hsc : r.shortened_link = "farts" := by rw [hr]
  constructor
  · rw [hst, hsc]
  · rw [hst, hsc]
    exact dbGet_dbInsert_self _ _ _

theorem insert_key_and_value_witness :
    (⟨dbInsert (strBytes "farts")
          (encodeLink ⟨9, "https://a.example", "farts", none⟩) [], 10⟩ : LMState).db =
      dbInsert (strBytes "farts")
        (encodeLink ⟨9, "https://a.example", "farts", none⟩) [] ∧
    dbGet (strBytes "farts")
        (dbInsert (strBytes "farts")
          (encodeLink ⟨9, "https://a.example", "farts", none⟩) []) =
      some (encodeLink ⟨9, "https://a.example", "farts", none⟩) :=
  insert_key_and_value ⟨[], 9⟩ "https://a.example" none
    ⟨9, "https://a.example", "farts", none⟩
    ⟨dbInsert (strBytes "farts")
        (encodeLink ⟨9, "https://a.example", "farts", none⟩) [], 10⟩
    (by decide)

/-- C9: a successful `generate_link` performs exactly one store insert —
the new store is the old one with a single upsert under one key — while
`resolve_link` mutates nothing: it hands the state back unchanged, so
every key reads the same before and after. -/
theorem store_effects (st : LMState) (u : String) (a : Option (List String))
    (r : Link) (st' : LMState) (st0 : LMState) (code : String)
    (h : generate_link st u a = (.ok r, st')) :
    st'.db = dbInsert (strBytes r.shortened_link) (encodeLink r) st.db ∧
    (resolve_link st0 code).2 = st0 ∧
    ∀ k, dbGet k (resolve_link st0 code).2.db = dbGet k st0.db := by
  obtain ⟨hr, -, hst⟩ := generate_link_ok st u a r st' h
  have hsc : r.shortened_link = "farts" := by rw [hr]
  exact ⟨by rw [hst, hsc], rfl, fun k => rfl⟩

theorem store_effects_witness :
    (⟨dbInsert (strBytes "farts")
          (encodeLink ⟨4, "https://a.example", "farts", none⟩) [], 5⟩ : LMState).db =
      dbInsert (strBytes "farts")
        (encodeLink ⟨4, "https://a.example", "farts", none⟩) [] ∧
    (resolve_link ⟨[(strBytes "k", [9])], 7⟩ "k").2 = ⟨[(strBytes "k", [9])], 7⟩ ∧
    ∀ k, dbGet k (resolve_link ⟨[(strBytes "k", [9])], 7⟩ "k").2.db =
      dbGet k (⟨[(strBytes "k", [9])], 7⟩ : LMState).db :=
  store_effects ⟨[], 4⟩ "https://a.example" none
    ⟨4, "https://a.example", "farts", none⟩
    ⟨dbInsert (strBytes "farts")
        (encodeLink ⟨4, "https://a.example", "farts", none⟩) [], 5⟩
    ⟨[(strBytes "k", [9])], 7⟩ "k"
    (by decide)

/-- C10: for every `Link` record whose URL is a parsed URL (it re-parses
to itself) and whose sizes fit the Rust types (`linkWF`), deserializing
the byte vector produced by `encodeLink` succeeds and yields the record
back field-for-field, independent of the store. -/
theorem encode_decode_roundtrip (l : Link) (h1 : linkWF l)
    (h2 : urlParse l.original_link = some l.original_link) :
    decodeLink (encodeLink l) = some l :=
  decodeLink_encodeLink l h1 h2

theorem encode_decode_roundtrip_witness :
    decodeLink (encodeLink
        ⟨123456789012345678901234567890, "https://ex.ample/path?q=1", "farts",
          some ["café", "a b"]⟩) =
      some ⟨123456789012345678901234567890, "https://ex.ample/path?q=1", "farts",
        some ["café", "a b"]⟩ :=
  encode_decode_roundtrip
    ⟨123456789012345678901234567890, "https://ex.ample/path?q=1", "farts",
      some ["café", "a b"]⟩
    (by decide) (by decide)

end Short
